/-
Verification of the gdump schedule-extraction pipeline (src/gdump/__main__.py).

The Python source is shallowly embedded: every function of the pipeline
(parse_courses, refine_courses, the classification and title-casing logic of
create_calendar, and the date loop / task submission of main) is translated
into an executable Lean definition.  Library primitives used by the source
(str.title, str.replace, str.split, str.strip, datetime.strptime,
pytz.localize, BeautifulSoup traversal) are modelled explicitly, each with a
doc comment stating the modelled behaviour.  Strings are treated at the
ASCII level, which covers every string the pipeline manipulates.
-/
import Mathlib

namespace GDump

/-! ## ASCII character primitives (model of Python `str` case/class methods) -/

/-- ASCII uppercase letter test, `'A'..'Z'`. -/
def isUpperA (c : Char) : Bool := 65 ≤ c.toNat && c.toNat ≤ 90

/-- ASCII lowercase letter test, `'a'..'z'`. -/
def isLowerA (c : Char) : Bool := 97 ≤ c.toNat && c.toNat ≤ 122

/-- ASCII letter test: model of Python `str.isalpha` / "cased" on ASCII. -/
def isAlphaA (c : Char) : Bool := isUpperA c || isLowerA c

/-- ASCII decimal digit test. -/
def isDigitA (c : Char) : Bool := 48 ≤ c.toNat && c.toNat ≤ 57

/-- Python whitespace characters stripped by `str.strip()`. -/
def isSpaceA (c : Char) : Bool :=
  c = ' ' || c = '\t' || c = '\n' || c = '\x0d' || c = '\x0b' || c = '\x0c'

/-- Lowercase an ASCII character (model of Python `str.lower` per char). -/
def lowerA (c : Char) : Char :=
  if isUpperA c then Char.ofNat (c.toNat + 32) else c

/-- Uppercase an ASCII character (model of Python `str.upper` per char). -/
def upperA (c : Char) : Char :=
  if isLowerA c then Char.ofNat (c.toNat - 32) else c

/-! ## Python string operations over `List Char` -/

/-- Model of Python `str.strip()` : drop leading and trailing whitespace. -/
def pyStripList (cs : List Char) : List Char :=
  ((cs.dropWhile isSpaceA).reverse.dropWhile isSpaceA).reverse

/-- `str.strip()` on a `String`. -/
def pyStrip (s : String) : String := ⟨pyStripList s.data⟩

/-- Model of Python `str.strip("()")` : drop leading/trailing parentheses. -/
def stripParens (s : String) : String :=
  let isParen : Char → Bool := fun c => c = '(' || c = ')'
  ⟨((s.data.dropWhile isParen).reverse.dropWhile isParen).reverse⟩

/-- Model of Python `str.split(sep)` for a one-character separator: split at
every occurrence, keeping empty fields. -/
def splitChar (sep : Char) : List Char → List (List Char)
  | [] => [[]]
  | c :: rest =>
    match splitChar sep rest with
    | [] => [[]]
    | h :: t => if c = sep then [] :: h :: t else (c :: h) :: t

/-- Index of the first occurrence of `pat` as a contiguous sublist, if any. -/
def findSubIdx (pat : List Char) : List Char → Option Nat
  | [] => if pat = [] then some 0 else none
  | c :: rest =>
    if pat.isPrefixOf (c :: rest) then some 0
    else (findSubIdx pat rest).map (· + 1)

/-- Model of the Python containment test `needle in hay` on strings. -/
def pyIn (needle hay : String) : Bool := (findSubIdx needle.data hay.data).isSome

/-- Recursion core of `str.replace` : the fuel argument only forces
structural termination and never runs out when it starts at the length of
the scanned list (each step consumes at least one character). -/
def replaceAux (pat rep : List Char) : Nat → List Char → List Char
  | _, [] => []
  | 0, cs => cs
  | fuel + 1, c :: rest =>
    if pat.isPrefixOf (c :: rest) && !pat.isEmpty then
      rep ++ replaceAux pat rep fuel ((c :: rest).drop pat.length)
    else
      c :: replaceAux pat rep fuel rest

/-- Model of Python `str.replace(pat, rep)` for a nonempty `pat` : replace
every non-overlapping occurrence, scanning left to right. -/
def replaceList (pat rep cs : List Char) : List Char :=
  replaceAux pat rep cs.length cs

/-- `str.replace` on `String`s. -/
def pyReplace (s pat rep : String) : String := ⟨replaceList pat.data rep.data s.data⟩

/-- Model of Python `str.removeprefix`. -/
def pyRemovePre (s pat : String) : String :=
  if pat.data.isPrefixOf s.data then ⟨s.data.drop pat.data.length⟩ else s

/-- Model of Python `str.removesuffix`. -/
def pyRemoveSuf (s pat : String) : String :=
  if pat.data.reverse.isPrefixOf s.data.reverse then
    ⟨(s.data.reverse.drop pat.data.length).reverse⟩
  else s

/-- Model of Python `str.rsplit(" ", 1)` followed by 2-tuple unpacking: split
at the last space; `none` models the `ValueError` raised when no space
exists so the unpacking fails. -/
def rsplitSpaceOnce (s : String) : Option (String × String) :=
  match findSubIdx [' '] s.data.reverse with
  | none => none
  | some i =>
      some (⟨(s.data.reverse.drop (i + 1)).reverse⟩, ⟨(s.data.reverse.take i).reverse⟩)

/-- All characters are ASCII decimal digits and the list is nonempty. -/
def allDigits (cs : List Char) : Bool := !cs.isEmpty && cs.all isDigitA

/-- Numeric value of a list of ASCII digits (model of `int` conversion as
performed inside `strptime`). -/
def digitsVal (cs : List Char) : Nat := cs.foldl (fun a c => a * 10 + (c.toNat - 48)) 0

/-! ## Markup document model (embedding of the BeautifulSoup node tree)

`parse_courses` receives markup already parsed by BeautifulSoup and only ever
walks the node tree through `find` / `find_all` / `.contents` / `.text` /
`.string` / `.get`.  The tree is embedded directly: a node is either an
element (tag name, attribute list, children) or a text node (a
`NavigableString`). -/

inductive BsNode where
  | tag (name : String) (attrs : List (String × String)) (children : List BsNode)
  | text (s : String)

/-- The children (`Tag.contents`) of a node; a text node has none. -/
def childrenOf : BsNode → List BsNode
  | .tag _ _ cs => cs
  | .text _ => []

/-- Whether a node is an element (`hasattr(x, "contents")` in the source:
`Tag` has `.contents`, `NavigableString` does not). -/
def isTagNode : BsNode → Bool
  | .tag _ _ _ => true
  | .text _ => false

/-- The `.name` of a node: tag name for elements, `None` for text nodes. -/
def nodeName : BsNode → Option String
  | .tag n _ _ => some n
  | .text _ => none

/-- First value of an attribute, as `Tag.get` returns it. -/
def attrGet (attrs : List (String × String)) (key : String) : Option String :=
  (attrs.find? (fun p => p.1 = key)).map (·.2)

mutual

/-- Model of BeautifulSoup `.text` / `get_text()` : concatenation of every
descendant text node, in document order. -/
def getText : BsNode → String
  | .text s => s
  | .tag _ _ cs => getTextList cs

def getTextList : List BsNode → String
  | [] => ""
  | c :: cs => getText c ++ getTextList cs

end

mutual

/-- Model of BeautifulSoup `.string` : a text node is its own string; an
element with exactly one child delegates to that child; otherwise `None`. -/
def nodeString : BsNode → Option String
  | .text s => some s
  | .tag _ _ [c] => nodeString c
  | .tag _ _ _ => none

end

mutual

/-- Preorder listing of a node and all its descendants (the order in which
BeautifulSoup `find_all` yields matches). -/
def nodesOf : BsNode → List BsNode
  | .text s => [.text s]
  | .tag n a cs => .tag n a cs :: nodesOfList cs

def nodesOfList : List BsNode → List BsNode
  | [] => []
  | c :: cs => nodesOf c ++ nodesOfList cs

end

mutual

/-- Model of Python `str(node)` on a BeautifulSoup node: text nodes print
their text, elements print as markup. -/
def render : BsNode → String
  | .text s => s
  | .tag n attrs cs =>
      "<" ++ n ++ renderAttrs attrs ++ ">" ++ renderList cs ++ "</" ++ n ++ ">"

def renderAttrs : List (String × String) → String
  | [] => ""
  | (k, v) :: rest => " " ++ k ++ "=\x22" ++ v ++ "\x22" ++ renderAttrs rest

def renderList : List BsNode → String
  | [] => ""
  | c :: cs => render c ++ renderList cs

end

/-- `find_all` over a whole document (a list of top-level nodes): every node
in document order satisfying `p`. -/
def soupFindAll (p : BsNode → Bool) (doc : List BsNode) : List BsNode :=
  (nodesOfList doc).filter p

/-- `find` over a whole document: first match in document order. -/
def soupFind (p : BsNode → Bool) (doc : List BsNode) : Option BsNode :=
  (soupFindAll p doc).head?

/-- `Tag.find_all` : matches among the node's descendants only. -/
def tagFindAll (p : BsNode → Bool) : BsNode → List BsNode
  | .tag _ _ cs => (nodesOfList cs).filter p
  | .text _ => []

/-- Whitespace-separated words of an attribute value (BeautifulSoup treats
`class` as a multi-valued attribute). -/
def classList (v : String) : List String :=
  ((splitChar ' ' v.data).filter (fun w => !w.isEmpty)).map (fun w => ⟨w⟩)

/-- Does a node match `find(tagName, class_=cls)`? -/
def matchesTagClass (tagName cls : String) (n : BsNode) : Bool :=
  match n with
  | .tag nm attrs _ =>
      nm = tagName &&
        (match attrGet attrs "class" with
         | some v => (classList v).contains cls
         | none => false)
  | .text _ => false

/-- Does a node match `find("td", class_="cellCenter", string="School Closed")`? -/
def isClosedSentinel (n : BsNode) : Bool :=
  matchesTagClass "td" "cellCenter" n && nodeString n = some "School Closed"

/-- Does a node match `find("td", colspan=v)`? -/
def isTdColspan (v : String) (n : BsNode) : Bool :=
  match n with
  | .tag nm attrs _ => nm = "td" && attrGet attrs "colspan" = some v
  | .text _ => false

/-- Does a node match `find_all(tagName)` (element with the given name)? -/
def isTagNamed (tagName : String) (n : BsNode) : Bool :=
  match n with
  | .tag nm _ _ => nm = tagName
  | .text _ => false

/-- Python truthiness of the `course_info` value in `parse_courses`: a `Tag`
is truthy iff it has children (`Tag.__len__` counts `.contents`), a
`NavigableString` iff it is nonempty. -/
def nodeTruthy : BsNode → Bool
  | .tag _ _ cs => !cs.isEmpty
  | .text s => s ≠ ""

/-! ## `parse_courses` -/

structure UnparsedCourse where
  block : String
  start_time : String
  end_time : String
  course_name : String
  teacher : String
  room : String
  color : String
deriving DecidableEq, Repr

/-- Python list indexing: `IndexError` when out of range. -/
def listIdx (l : List α) (i : Nat) : Except String α :=
  match l[i]? with
  | some x => Except.ok x
  | none => Except.error "IndexError: list index out of range"

/-- The color expression of `parse_courses` (lines 168-172):
`style.split("background-color:", 1)[-1].split(";")[0].strip()`.
Note that when `"background-color:"` does not occur, Python's
`split(sep, 1)[-1]` is the whole string, not the empty string. -/
def extractColor (style : String) : String :=
  match splitChar ';'
      (match findSubIdx "background-color:".data style.data with
       | some i => style.data.drop (i + "background-color:".data.length)
       | none => style.data) with
  | [] => ""
  | seg :: _ => ⟨pyStripList seg⟩

/-- The body of the `for row in rows` loop of `parse_courses` : `.ok none`
when the row is skipped, `.ok (some c)` when it contributes a course, and
`.error` when the Python code raises. -/
def processRow (row : BsNode) : Except String (Option UnparsedCourse) := do
  let cells := tagFindAll (isTagNamed "td") row
  match cells with
  | [c0, c1] =>
    let timeInfo := tagFindAll (isTagNamed "div") c0
    let b ← listIdx timeInfo 0
    let st ← listIdx timeInfo 1
    let en ← listIdx timeInfo 2
    let block := pyStrip (getText b)
    let startTime := pyStrip (getText st)
    let endTime := pyStrip (getText en)
    let contents0 ← listIdx (childrenOf c1) 0
    if isTagNode contents0 then
      -- regular_schedule: course_info = cells[1].contents[0].contents[0]
      let ci ← listIdx (childrenOf contents0) 0
      if 3 ≤ timeInfo.length ∧ nodeTruthy ci then
        match ci with
        | .text _ => Except.error "AttributeError: contents"
        | .tag _ ciAttrs ciChildren =>
          let details := (ciChildren.filter (fun x => nodeName x ≠ some "br")).map
            (fun x => pyStrip (pyRemoveSuf (pyRemovePre (render x) "<b>") "</b>"))
          let courseName ← listIdx details 0
          let teacher := details.getD 1 ""
          let room := if 2 < details.length then pyRemovePre (details.getD 2 "") "Room: " else ""
          let color := extractColor ((attrGet ciAttrs "style").getD "")
          return some ⟨block, startTime, endTime, courseName, teacher, room, color⟩
      else
        return none
    else
      -- fallback: course_info = cells[1].text
      let ciStr := getText c1
      if 3 ≤ timeInfo.length ∧ ciStr ≠ "" then
        let details := (((splitChar '\n' ciStr.data).map
          (fun l => (⟨l⟩ : String))).drop 1).take 3
        let courseName ← listIdx details 0
        let teacher := details.getD 1 ""
        let room := if 2 < details.length then pyRemovePre (details.getD 2 "") "Room: " else ""
        return some ⟨block, startTime, endTime, courseName, teacher, room, "#3a3a3a"⟩
      else
        return none
  | _ => return none

/-- The gate `parse_courses` actually applies before a row can contribute a
course: the row has exactly two data cells and the `course_info` value
computed for it is truthy (for a regular nested block, the inner node has a
child; for the plain-text fallback, the cell text is non-empty). -/
def rowCourseInfoTruthy (row : BsNode) : Bool :=
  match tagFindAll (isTagNamed "td") row with
  | [_, c1] =>
    match (childrenOf c1)[0]? with
    | some contents0 =>
      if isTagNode contents0 then
        match (childrenOf contents0)[0]? with
        | some ci => nodeTruthy ci
        | none => false
      else getText c1 ≠ ""
    | none => false
  | _ => false

/-- Embedding of `parse_courses` over the parsed markup tree.  An
`Except.error` value is a Python exception escaping the function. -/
def parseCourses (doc : List BsNode) :
    Except String (String × String × List UnparsedCourse) := do
  if !(soupFindAll isClosedSentinel doc).isEmpty then
    return ("School Closed", "", [])
  -- `soup.find("td", colspan="3") or soup.find("td", colspan="2")` : Python
  -- `or` keeps the first operand only when truthy (a childless Tag is falsy).
  let scheduleInfo :=
    match soupFind (isTdColspan "3") doc with
    | some n => if nodeTruthy n then some n else soupFind (isTdColspan "2") doc
    | none => soupFind (isTdColspan "2") doc
  -- `if not schedule_info:` : None and falsy Tags both take this branch.
  match scheduleInfo with
  | none => return ("No Schedule", "", [])
  | some infoNode =>
    if !nodeTruthy infoNode then
      return ("No Schedule", "", [])
    let info := pyStrip (getText infoNode)
    match rsplitSpaceOnce info with
    | none => Except.error "ValueError: not enough values to unpack"
    | some (scheduleName, dateRaw) =>
      let scheduleDate := stripParens dateRaw
      let rows := soupFindAll (matchesTagClass "tr" "listrow") doc
      let courses ← rows.foldlM (fun acc row => do
          match ← processRow row with
          | some c => pure (acc ++ [c])
          | none => pure acc) []
      return (scheduleName, scheduleDate, courses)

/-! ## `refine_courses` : dates, times and timezone localization -/

structure NaiveDate where
  year : Nat
  month : Nat
  day : Nat
deriving DecidableEq, Repr

def isLeapYear (y : Nat) : Bool := (y % 4 = 0 && y % 100 ≠ 0) || y % 400 = 0

def daysInMonth (y m : Nat) : Nat :=
  if m = 2 then (if isLeapYear y then 29 else 28)
  else if m = 4 || m = 6 || m = 9 || m = 11 then 30 else 31

/-- Model of `datetime.strptime(s, "%m/%d/%Y")` : `%m` and `%d` accept one or
two digits, `%Y` up to four; the values must form a real calendar date,
otherwise `ValueError` (here `none`). -/
def parseDateMDY (s : String) : Option NaiveDate :=
  match splitChar '/' s.data with
  | [ms, ds, ys] =>
    if allDigits ms && allDigits ds && allDigits ys
        && ms.length ≤ 2 && ds.length ≤ 2 && ys.length ≤ 4 then
      let m := digitsVal ms
      let d := digitsVal ds
      let y := digitsVal ys
      if 1 ≤ m && m ≤ 12 && 1 ≤ d && d ≤ daysInMonth y m then some ⟨y, m, d⟩ else none
    else none
  | _ => none

/-- Model of `datetime.strptime(s, "%I:%M%p").time()` : a 12-hour clock time
such as `8:05AM` or `12:30PM` (hour 1-12 with no leading-zero requirement,
minutes 0-59, case-insensitive meridiem), converted to (hour24, minute);
`none` models the `ValueError` on any string not matching the pattern. -/
def parseTime12 (s : String) : Option (Nat × Nat) :=
  match splitChar ':' s.data with
  | [hs, rest] =>
    let ms := rest.takeWhile isDigitA
    let mer : String := ⟨(rest.dropWhile isDigitA).map lowerA⟩
    if allDigits hs && hs.length ≤ 2 && allDigits ms && ms.length ≤ 2 then
      let h := digitsVal hs
      let m := digitsVal ms
      if (1 ≤ h && h ≤ 12 && m ≤ 59) && (mer = "am" || mer = "pm") then
        some (if mer = "pm" then h % 12 + 12 else h % 12, m)
      else none
    else none
  | _ => none

/-- Zeller's congruence for the Gregorian calendar; result 1 means Sunday. -/
def zellerH (y m d : Nat) : Nat :=
  let p : Nat × Nat := if m ≤ 2 then (y - 1, m + 12) else (y, m)
  let K := p.1 % 100
  let J := p.1 / 100
  (d + 13 * (p.2 + 1) / 5 + K + K / 4 + J / 4 + 5 * J) % 7

def isSunday (y m d : Nat) : Bool := zellerH y m d = 1

/-- Day of month of the first Sunday of a month. -/
def firstSundayOfMonth (y m : Nat) : Nat :=
  (((List.range 7).map (· + 1)).find? (isSunday y m)).getD 1

/-- Whether a wall-clock instant in `America/New_York` carries the daylight
offset.  Model of the pytz (post-2007 US) rules as `tz.localize` applies
them with the default `is_dst=False`: daylight time runs from 03:00 wall
clock on the second Sunday of March (the nonexistent 02:00-02:59 hour
resolves to standard time) to 01:00 wall clock on the first Sunday of
November (the ambiguous 01:00-01:59 hour resolves to standard time). -/
def nyIsDst (y m d hr mi : Nat) : Bool :=
  let key := ((m * 100 + d) * 100 + hr) * 100 + mi
  let startKey := ((3 * 100 + (firstSundayOfMonth y 3 + 7)) * 100 + 3) * 100
  let endKey := ((11 * 100 + firstSundayOfMonth y 11) * 100 + 1) * 100
  startKey ≤ key && key < endKey

/-- A timezone-aware instant: local wall-clock fields plus the attached UTC
offset in minutes. -/
structure AwareInstant where
  year : Nat
  month : Nat
  day : Nat
  hour : Nat
  minute : Nat
  utcOffsetMinutes : Int
deriving DecidableEq, Repr

inductive TzInfo where
  | americaNewYork
deriving DecidableEq, Repr

/-- Model of `pytz.timezone` : only the zone the program uses is modelled;
any other name raises `UnknownTimeZoneError` (here `none`). -/
def pytzTimezone (name : String) : Option TzInfo :=
  if name = "America/New_York" then some TzInfo.americaNewYork else none

/-- Model of `tz.localize(datetime.combine(date, time))` : the wall-clock
fields are preserved and the UTC offset prescribed by the zone's rules on
that instant is attached (EDT is UTC-04:00, EST is UTC-05:00). -/
def localize (tz : TzInfo) (d : NaiveDate) (t : Nat × Nat) : AwareInstant :=
  match tz with
  | TzInfo.americaNewYork =>
    ⟨d.year, d.month, d.day, t.1, t.2,
      if nyIsDst d.year d.month d.day t.1 t.2 then -240 else -300⟩

structure RefinedCourse where
  block : String
  start_time : AwareInstant
  end_time : AwareInstant
  course_name : String
  teacher : String
  room : String
  color : String
deriving DecidableEq, Repr

/-- One iteration of the `for course in courses` loop of `refine_courses` :
parse the two time strings (raising `ValueError` on a mismatch) and attach
the localized instants. -/
def refineOne (tz : TzInfo) (date : NaiveDate) (c : UnparsedCourse) :
    Except String RefinedCourse := do
  let st ← match parseTime12 c.start_time with
    | some t => Except.ok t
    | none => Except.error "ValueError: time data does not match format"
  let en ← match parseTime12 c.end_time with
    | some t => Except.ok t
    | none => Except.error "ValueError: time data does not match format"
  pure { block := c.block
         start_time := localize tz date st
         end_time := localize tz date en
         course_name := c.course_name
         teacher := c.teacher
         room := c.room
         color := c.color : RefinedCourse }

/-- Embedding of `refine_courses` : parse the day's date once, then convert
each row's start/end strings; any failure (unknown zone, bad date, bad time
string) is a Python exception escaping the function. -/
def refineCourses (scheduleDate : String) (courses : List UnparsedCourse)
    (timezone : String) : Except String (List RefinedCourse) := do
  let tz ← match pytzTimezone timezone with
    | some t => Except.ok t
    | none => Except.error "UnknownTimeZoneError"
  let date ← match parseDateMDY scheduleDate with
    | some d => Except.ok d
    | none => Except.error "ValueError: time data does not match format"
  courses.mapM (refineOne tz date)

/-! ## `create_calendar` : title-case correction and category classification -/

/-- Model of Python `str.title()` on ASCII text: a cased (alphabetic)
character is uppercased when the previous character is not cased and
lowercased otherwise; the accumulator records whether the previous
character was cased. -/
def titleAux : List Char → Bool → List Char
  | [], _ => []
  | c :: rest, prevCased =>
    (if isAlphaA c then (if prevCased then lowerA c else upperA c) else c)
      :: titleAux rest (isAlphaA c)

def pyTitle (s : String) : String := ⟨titleAux s.data false⟩

/-- The abbreviation-fixing chain of `create_calendar` (lines 232-244):
`str.title()` followed by the replacements in source order, including the
no-op `Ap→AP`-style duplicates exactly as written. -/
def fancyName (name : String) : String :=
  let f := pyTitle name
  let f := pyReplace f "Ap" "AP"
  let f := pyReplace f "Am" "Am"
  let f := pyReplace f "Cp" "CP"
  let f := pyReplace f "Am" "AM"
  let f := pyReplace f "Tv" "TV"
  let f := pyReplace f "Ab" "AB"
  let f := pyReplace f "Ai" "AI"
  let f := pyReplace f "Bc" "BC"
  let f := pyReplace f "Ib" "IB"
  let f := pyReplace f "Ii" "II"
  let f := pyReplace f "Iii" "III"
  pyReplace f "Iv" "IV"

/-- The same replacement chain at the character-list level (innermost
application first, in source order). -/
def chainL (l : List Char) : List Char :=
  replaceList "Iv".data "IV".data
    (replaceList "Iii".data "III".data
      (replaceList "Ii".data "II".data
        (replaceList "Ib".data "IB".data
          (replaceList "Bc".data "BC".data
            (replaceList "Ai".data "AI".data
              (replaceList "Ab".data "AB".data
                (replaceList "Tv".data "TV".data
                  (replaceList "Am".data "AM".data
                    (replaceList "Cp".data "CP".data
                      (replaceList "Am".data "Am".data
                        (replaceList "Ap".data "AP".data l)))))))))))

/-- Two characters are the same letter up to case. -/
def sameLetter (a b : Char) : Prop := lowerA a = lowerA b

/-- The `class_emoji` if/elif chain of `create_calendar` (lines 246-304),
applied to the corrected (`fancy`) course name. -/
def classEmoji (n : String) : String :=
  if pyIn "AP" n || pyIn "IB" n then "📚"
  else if pyIn "Math" n || pyIn "Algebra" n || pyIn "Geometry" n || pyIn "Calculus" n
      || pyIn "Statistics" n || pyIn "Precalc" n then "➗"
  else if pyIn "Science" n || pyIn "Biology" n || pyIn "Chemistry" n then "🔬"
  else if pyIn "History" n || pyIn "Geography" n then "🌍"
  else if pyIn "English" n || pyIn "Literature" n then "📝"
  else if pyIn "Art" n || pyIn "Music" n then "🎨"
  else if pyIn "Physical Education" n || pyIn "PE" n then "🏅"
  else if pyIn "Computer" n || pyIn "Programming" n then "💻"
  else if pyIn "Language" n ||
      ["Spanish", "French", "German", "Chinese", "Japanese", "Arabic", "Russian",
       "Italian", "Portuguese", "Korean", "Latin", "Greek",
       "Hebrew", "Hindi"].any (fun l => pyIn l n) then "🌐"
  else if pyIn "Biotechnology" n then "🧬"
  else if pyIn "Forensics" n then "🕵️‍♂️"
  else if pyIn "Economics" n then "💹"
  else if pyIn "Psychology" n then "🧠"
  else if pyIn "Engineering" n then "🛠️"
  else if pyIn "Environmental Science" n then "🌱"
  else if pyIn "Philosophy" n then "🤔"
  else if pyIn "Business" n then "💼"
  else if pyIn "Law" n then "⚖️"
  else if pyIn "Medicine" n then "🩺"
  else if pyIn "Lunch" n then "🍴"
  else if pyIn "Study Hall" n then "📚"
  else if pyIn "Free" n then "🕰️"
  else if pyIn "Assembly" n then "🎉"
  else if pyIn "Advisory" n then "👥"
  else if pyIn "Homeroom" n then "🏠"
  else if pyIn "Meeting" n then "👥"
  else if pyIn "Break" n then "☕"
  else "🎓"

/-- The classification rule table as the spec states it: an ordered list of
keyword sets with their tags, one entry per `if`/`elif` branch. -/
def categoryRules : List (List String × String) :=
  [(["AP", "IB"], "📚"),
   (["Math", "Algebra", "Geometry", "Calculus", "Statistics", "Precalc"], "➗"),
   (["Science", "Biology", "Chemistry"], "🔬"),
   (["History", "Geography"], "🌍"),
   (["English", "Literature"], "📝"),
   (["Art", "Music"], "🎨"),
   (["Physical Education", "PE"], "🏅"),
   (["Computer", "Programming"], "💻"),
   (["Language", "Spanish", "French", "German", "Chinese", "Japanese", "Arabic",
     "Russian", "Italian", "Portuguese", "Korean", "Latin", "Greek",
     "Hebrew", "Hindi"], "🌐"),
   (["Biotechnology"], "🧬"),
   (["Forensics"], "🕵️‍♂️"),
   (["Economics"], "💹"),
   (["Psychology"], "🧠"),
   (["Engineering"], "🛠️"),
   (["Environmental Science"], "🌱"),
   (["Philosophy"], "🤔"),
   (["Business"], "💼"),
   (["Law"], "⚖️"),
   (["Medicine"], "🩺"),
   (["Lunch"], "🍴"),
   (["Study Hall"], "📚"),
   (["Free"], "🕰️"),
   (["Assembly"], "🎉"),
   (["Advisory"], "👥"),
   (["Homeroom"], "🏠"),
   (["Meeting"], "👥"),
   (["Break"], "☕")]

/-- Does a rule match a name: some keyword of the rule occurs in the name. -/
def ruleMatches (n : String) (r : List String × String) : Bool :=
  r.1.any (fun k => pyIn k n)

/-- Scan an ordered rule table and return the tag of the first rule that
matches, or the graduation-cap default when none does. -/
def firstRuleTag (n : String) : List (List String × String) → String
  | [] => "🎓"
  | r :: rs => if ruleMatches n r then r.2 else firstRuleTag n rs

/-- Classification as the spec words it: the tag of the first matching rule
in the ordered table, with the graduation-cap default when none matches. -/
def specClassify (n : String) : String := firstRuleTag n categoryRules

/-! ## `main` : the date loop and the fire-and-forget task pool -/

/-- Iteration core of the date loop; the fuel argument only forces
structural termination and is large enough whenever it starts at
`(endDate + 1 - current).toNat`, the number of remaining iterations. -/
def allDatesAux : Nat → Int → Int → List Int
  | 0, _, _ => []
  | fuel + 1, current, endDate =>
    if current ≤ endDate then (current + 1) :: allDatesAux fuel (current + 1) endDate
    else []

/-- The date-collection loop of `main` (lines 394-399), with datetimes
modelled as integer day ordinals (`timedelta(days=1)` is `+ 1`):
`while current <= end: current += 1; all_dates.append(current)`.
The increment precedes the append, exactly as in the source. -/
def allDates (current endDate : Int) : List Int :=
  allDatesAux (endDate + 1 - current).toNat current endDate

/-- The tail of `do_task` (lines 405-408): keep the schedule name and the
rows of the parse result, discard the parsed date (the `_` in the source),
and refine against the requested `schedule_date` when the day is neither
closed nor scheduleless and has rows. -/
def doTaskFromParse (parsed : String × String × List UnparsedCourse)
    (scheduleDate : String) (timezone : String) : Except String (List RefinedCourse) :=
  match parsed with
  | (scheduleName, _, courseStrings) =>
    if (scheduleName ≠ "School Closed" ∧ scheduleName ≠ "No Schedule")
        ∧ courseStrings ≠ [] then
      refineCourses scheduleDate courseStrings timezone
    else Except.ok []

/-- One task of `do_task` for a formatted schedule-date string, with the
network fetch abstracted as a function from that string to the day's parsed
markup tree: the rows the task appends to `all_courses`, or the exception
it raises. -/
def doTaskStr (fetch : String → List BsNode) (timezone : String)
    (scheduleDate : String) : Except String (List RefinedCourse) := do
  let parsed ← parseCourses (fetch scheduleDate)
  doTaskFromParse parsed scheduleDate timezone

/-- The fetch pool of `main` (lines 412-414): each date's task is submitted
with `executor.submit` and its `Future` is never read, so a task that raises
an exception contributes nothing and the exception is discarded when the
pool shuts down; every successful task extends the shared `all_courses`
list.  The tasks are independent, so the pool is modelled by concatenating
each task's contribution in submission order. -/
def runFetch (fetch : String → List BsNode) (timezone : String)
    (scheduleDates : List String) : List RefinedCourse :=
  (scheduleDates.map (fun sd =>
    match doTaskStr fetch timezone sd with
    | Except.ok l => l
    | Except.error _ => [])).flatten

/-! ## Concrete markup trees used as test inputs -/

/-- A `<div>` holding one text node. -/
def divText (s : String) : BsNode := .tag "div" [] [.text s]

/-- A schedule header cell `<td colspan="3">…</td>`. -/
def headerTd (s : String) : BsNode := .tag "td" [("colspan", "3")] [.text s]

/-- A two-cell schedule list row: the first cell holds the block/start/end
divs, the second wraps the course block `inner` one level down (so that
`cells[1].contents[0].contents[0]` is `inner`). -/
def listRow (blockL stL enL : String) (inner : BsNode) : BsNode :=
  .tag "tr" [("class", "listrow")]
    [.tag "td" [] [divText blockL, divText stL, divText enL],
     .tag "td" [] [.tag "div" [] [inner]]]

/-- A regular course block: styled node with bold name, `<br>` separators,
teacher and room text children. -/
def courseBlock (style nm teacher room : String) : BsNode :=
  .tag "div" [("style", style)]
    [.tag "b" [] [.text nm], .tag "br" [] [], .text teacher,
     .tag "br" [] [], .text room]

def goodBlock : BsNode :=
  courseBlock "background-color:#ff0000; color:white" "ap biology" "Smith" "Room: 204"

/-- A well-formed day: header `Day 1 (09/03/2024)` and one regular row. -/
def docGood : List BsNode :=
  [headerTd "Day 1 (09/03/2024)", listRow "1" "8:05AM" "8:55AM" goodBlock]

/-- Same day but the start-time string does not match the 12-hour pattern. -/
def docBadTime : List BsNode :=
  [headerTd "Day 1 (09/03/2024)", listRow "1" "8:05XX" "8:55AM" goodBlock]

/-- A closed day that still carries a header and a full course row after the
sentinel cell. -/
def docClosed : List BsNode :=
  [.tag "td" [("class", "cellCenter")] [.text "School Closed"],
   headerTd "Day 1 (09/03/2024)", listRow "1" "8:05AM" "8:55AM" goodBlock]

/-- A day whose first row has exactly two data cells but only two `<div>`
sub-elements in the first cell, followed by a well-formed row. -/
def docShortCell : List BsNode :=
  [headerTd "Day 2 (09/04/2024)",
   .tag "tr" [("class", "listrow")]
     [.tag "td" [] [divText "1", divText "8:05AM"],
      .tag "td" [] [.tag "div" [] [goodBlock]]],
   listRow "2" "9:00AM" "9:50AM" goodBlock]

/-- A day whose course block is truthy (has a child) but whose extracted
course name strips to the empty string. -/
def docBlankName : List BsNode :=
  [headerTd "Day 1 (09/03/2024)",
   listRow "1" "8:05AM" "8:55AM" (.tag "div" [] [.text "   "])]

/-- A day whose course block carries a style attribute with no
`background-color` declaration. -/
def docNoBg : List BsNode :=
  [headerTd "Day 1 (09/03/2024)",
   listRow "1" "8:05AM" "8:55AM"
     (.tag "div" [("style", "color:red;font-size:10px")] [.text "Math Class"])]

/-- A two-day fetch table: the first day's markup carries a malformed start
time, the second day is well-formed. -/
def exFetch : String → List BsNode := fun sd =>
  if sd = "09/03/2024" then docBadTime
  else if sd = "09/04/2024" then docGood
  else []

/-! ## Claim theorems -/

/-- C1 (evaluation of the code bug): the date loop of `main` increments
`current_date` before appending it, so a run over days `start..end` submits
tasks for `start+1..end+1` : with `start = end = 0` the only submitted date
is day 1, and over `0..3` day 0 is never fetched while day 4 (outside the
requested range) is. -/
theorem c1_date_loop_off_by_one :
    allDates 0 0 = [1] ∧ allDates 0 3 = [1, 2, 3, 4] ∧
    (0 : Int) ∉ allDates 0 3 ∧ (4 : Int) ∈ allDates 0 3 := by
  refine ⟨rfl, rfl, ?_, ?_⟩ <;> decide

/-- C3: category classification is deterministic and evaluates its keyword
rules in a fixed priority order with the first match winning: the
`if`/`elif` chain equals the ordered first-match scan of the rule table for
every name, and `"AP Calculus"` — which matches both the AP/IB rule and the
Math rule — receives the books tag of the earlier AP/IB rule, not the
division-sign tag of the Math rule. -/
theorem c3_first_match_priority :
    (∀ n, classEmoji n = specClassify n) ∧
    ruleMatches "AP Calculus" (categoryRules.getD 0 ([], "")) = true ∧
    ruleMatches "AP Calculus" (categoryRules.getD 1 ([], "")) = true ∧
    classEmoji "AP Calculus" = "📚" ∧ (categoryRules.getD 1 ([], "")).2 ≠ "📚" := by
  refine ⟨fun n => ?_, rfl, rfl, rfl, by decide⟩
  simp only [classEmoji, specClassify, firstRuleTag, categoryRules, ruleMatches,
    List.any_cons, List.any_nil, Bool.or_false, Bool.or_assoc]

/-- A document with a node satisfying `p` has a nonempty `soupFindAll p`. -/
theorem soupFindAll_ne_nil {p : BsNode → Bool} {doc : List BsNode} {n : BsNode}
    (hn : n ∈ nodesOfList doc) (hp : p n = true) :
    (soupFindAll p doc).isEmpty = false := by
  have hmem : n ∈ soupFindAll p doc := List.mem_filter.mpr ⟨hn, hp⟩
  cases hfa : soupFindAll p doc with
  | nil => rw [hfa] at hmem; exact absurd hmem (List.not_mem_nil n)
  | cons a t => rfl

/-- C4: for every markup tree containing the "School Closed" sentinel cell,
`parse_courses` returns the closed state with zero rows, regardless of any
other content in the document: no header is read and no course row is
extracted. -/
theorem c4_school_closed_short_circuits (doc : List BsNode)
    (h : ∃ n ∈ nodesOfList doc, isClosedSentinel n = true) :
    parseCourses doc = Except.ok ("School Closed", "", []) := by
  obtain ⟨n, hn, hp⟩ := h
  simp [parseCourses, soupFindAll_ne_nil hn hp]
  rfl

/-- C4 witness: a concrete closed-day document that carries, after the
sentinel cell, a full header and a well-formed course row. -/
theorem c4_school_closed_witness :
    parseCourses docClosed = Except.ok ("School Closed", "", []) :=
  c4_school_closed_short_circuits docClosed
    ⟨.tag "td" [("class", "cellCenter")] [.text "School Closed"],
     by simp [docClosed, nodesOfList, nodesOf, headerTd, listRow, divText, goodBlock,
       courseBlock],
     rfl⟩

/-- C5: refining the row (`8:05AM`, `8:55AM`) of `09/03/2024` in
`America/New_York` yields aware instants whose wall-clock components are
08:05 and 08:55 on 2024-09-03, carrying the daylight offset UTC−04:00
(−240 minutes) that the zone's DST rules prescribe on that date. -/
theorem c5_time_refinement_roundtrip :
    refineCourses "09/03/2024"
        [⟨"1", "8:05AM", "8:55AM", "ap biology", "Smith", "204", "#ff0000"⟩]
        "America/New_York"
      = Except.ok [⟨"1", ⟨2024, 9, 3, 8, 5, -240⟩, ⟨2024, 9, 3, 8, 55, -240⟩,
          "ap biology", "Smith", "204", "#ff0000"⟩] ∧
    nyIsDst 2024 9 3 8 5 = true := ⟨rfl, rfl⟩

/-- C6 (evaluation of the code bug): a schedule list row with exactly two
data cells whose first cell has only two `<div>` sub-elements is not
skipped: `time_info[2]` is read before the `len(time_info) >= 3` guard, so
the whole day's extraction aborts with an IndexError instead of proceeding
to the following well-formed row. -/
theorem c6_short_first_cell_raises :
    parseCourses docShortCell = Except.error "IndexError: list index out of range" := rfl

/-- C2 counterexample: with one malformed day (start string `8:05XX` on
`09/03/2024`) and one good day, the failing day's task raises, but the run
does not stop: the pool discards the exception and the final collection
still holds the good day's refined rows — a partial result the claim says
cannot exist. -/
theorem c2_run_survives_bad_day :
    doTaskStr exFetch "America/New_York" "09/03/2024"
        = Except.error "ValueError: time data does not match format" ∧
    runFetch exFetch "America/New_York" ["09/03/2024", "09/04/2024"]
        = [⟨"1", ⟨2024, 9, 4, 8, 5, -240⟩, ⟨2024, 9, 4, 8, 55, -240⟩,
            "ap biology", "Smith", "204", "#ff0000"⟩] := ⟨rfl, rfl⟩

/-- C7 counterexample: a row whose course block is a truthy element holding
only whitespace text contributes a record whose `course_name` is the empty
string, so a row's contribution is not conditioned on a non-empty course
name. -/
theorem c7_empty_name_contributes :
    parseCourses docBlankName
      = Except.ok ("Day 1", "09/03/2024", [⟨"1", "8:05AM", "8:55AM", "", "", "", ""⟩]) := rfl

/-- C8 counterexample: a regular course block whose style attribute has no
`background-color` declaration yields the style's first segment — Python's
`split(sep, 1)[-1]` is the whole string when the separator is absent — and
not the empty string the claim requires. -/
theorem c8_no_bg_still_nonempty :
    parseCourses docNoBg
      = Except.ok ("Day 1", "09/03/2024",
          [⟨"1", "8:05AM", "8:55AM", "Math Class", "", "", "color:red"⟩]) ∧
    extractColor "color:red;font-size:10px" ≠ "" := ⟨rfl, by decide⟩

/-- Binding an error propagates it. -/
theorem except_error_bind {α β : Type} (e : String) (f : α → Except String β) :
    (Except.error e >>= f) = Except.error e := rfl

/-- Binding a success applies the continuation. -/
theorem except_ok_bind {α β : Type} (a : α) (f : α → Except String β) :
    (Except.ok a >>= f) = f a := rfl

/-- Evaluation rule for `refineOne` as a nested match on the two parses. -/
theorem refineOne_eq (tz : TzInfo) (date : NaiveDate) (c : UnparsedCourse) :
    refineOne tz date c =
      match parseTime12 c.start_time with
      | none => Except.error "ValueError: time data does not match format"
      | some st =>
        match parseTime12 c.end_time with
        | none => Except.error "ValueError: time data does not match format"
        | some en =>
          Except.ok { block := c.block
                      start_time := localize tz date st
                      end_time := localize tz date en
                      course_name := c.course_name
                      teacher := c.teacher
                      room := c.room
                      color := c.color : RefinedCourse } := by
  unfold refineOne
  cases parseTime12 c.start_time <;> cases parseTime12 c.end_time <;> rfl

/-- Evaluation rule for `refineCourses` as a nested match. -/
theorem refineCourses_eq (sd : String) (courses : List UnparsedCourse) (tz : String) :
    refineCourses sd courses tz =
      match pytzTimezone tz with
      | none => Except.error "UnknownTimeZoneError"
      | some t =>
        match parseDateMDY sd with
        | none => Except.error "ValueError: time data does not match format"
        | some d => courses.mapM (refineOne t d) := by
  unfold refineCourses
  cases pytzTimezone tz <;> cases parseDateMDY sd <;> rfl

/-- A row with an unparseable start or end time makes `refineOne` raise. -/
theorem refineOne_error (tz : TzInfo) (date : NaiveDate) (c : UnparsedCourse)
    (h : parseTime12 c.start_time = none ∨ parseTime12 c.end_time = none) :
    ∃ e, refineOne tz date c = Except.error e := by
  refine ⟨"ValueError: time data does not match format", ?_⟩
  rcases h with h | h
  · rw [refineOne_eq, h]
  · cases hst : parseTime12 c.start_time with
    | none => rw [refineOne_eq, hst]
    | some st => rw [refineOne_eq, hst, h]

/-- `mapM` over `Except` fails whenever some element fails. -/
theorem mapM_error_of_mem {α β : Type} (f : α → Except String β) :
    ∀ (l : List α) (c : α), c ∈ l → (∃ e, f c = Except.error e) →
      ∃ e, l.mapM f = Except.error e := by
  intro l
  induction l with
  | nil => intro c hc; cases hc
  | cons a t ih =>
    intro c hc he
    rcases List.mem_cons.mp hc with hc | hc
    · subst hc
      obtain ⟨e, hfe⟩ := he
      refine ⟨e, ?_⟩
      rw [List.mapM_cons, hfe]
      rfl
    · cases hfa : f a with
      | error e =>
        refine ⟨e, ?_⟩
        rw [List.mapM_cons, hfa]
        rfl
      | ok v =>
        obtain ⟨e, hme⟩ := ih c hc he
        refine ⟨e, ?_⟩
        rw [List.mapM_cons, hfa, except_ok_bind, hme]
        rfl

/-- C2 (amended): a course row whose start or end time string does not
match the 12-hour pattern makes the refinement of that whole day abort with
a propagated error; but the run does not stop: a failing day's task is a
fire-and-forget future whose exception is discarded, so after one failing
and one succeeding day the pooled result is exactly the succeeding day's
rows — a silent partial result. -/
theorem c2_bad_time_aborts_day_only (sd : String) (courses : List UnparsedCourse)
    (tz : String) (c : UnparsedCourse) (hc : c ∈ courses)
    (hbad : parseTime12 c.start_time = none ∨ parseTime12 c.end_time = none)
    (fetch : String → List BsNode) (d1 d2 e : String) (l : List RefinedCourse)
    (h1 : doTaskStr fetch tz d1 = Except.error e)
    (h2 : doTaskStr fetch tz d2 = Except.ok l) :
    (∃ e2, refineCourses sd courses tz = Except.error e2) ∧
    runFetch fetch tz [d1, d2] = l := by
  constructor
  · rw [refineCourses_eq]
    cases htz : pytzTimezone tz with
    | none => exact ⟨"UnknownTimeZoneError", rfl⟩
    | some t =>
      cases hdt : parseDateMDY sd with
      | none => exact ⟨"ValueError: time data does not match format", rfl⟩
      | some d =>
        obtain ⟨e2, he2⟩ :=
          mapM_error_of_mem (refineOne t d) courses c hc (refineOne_error t d c hbad)
        exact ⟨e2, he2⟩
  · simp [runFetch, h1, h2]

/-- C2 witness: the malformed start string `8:05XX` on `09/03/2024` aborts
that day's refinement, while the run over that day plus the well-formed
`09/04/2024` still returns the latter's rows. -/
theorem c2_bad_time_aborts_day_only_witness :
    (∃ e2, refineCourses "09/03/2024"
        [⟨"1", "8:05XX", "8:55AM", "ap biology", "Smith", "204", "#ff0000"⟩]
        "America/New_York" = Except.error e2) ∧
    runFetch exFetch "America/New_York" ["09/03/2024", "09/04/2024"]
      = [⟨"1", ⟨2024, 9, 4, 8, 5, -240⟩, ⟨2024, 9, 4, 8, 55, -240⟩,
          "ap biology", "Smith", "204", "#ff0000"⟩] :=
  c2_bad_time_aborts_day_only "09/03/2024"
    [⟨"1", "8:05XX", "8:55AM", "ap biology", "Smith", "204", "#ff0000"⟩]
    "America/New_York" _ (List.mem_singleton.mpr rfl) (Or.inl rfl)
    exFetch "09/03/2024" "09/04/2024" "ValueError: time data does not match format"
    _ rfl rfl

/-- A successful `refineOne` anchors both instants to the given date. -/
theorem refineOne_fields (tz : TzInfo) (d : NaiveDate) (u : UnparsedCourse)
    (v : RefinedCourse) (h : refineOne tz d u = Except.ok v) :
    v.start_time.year = d.year ∧ v.start_time.month = d.month ∧
    v.start_time.day = d.day ∧ v.end_time.year = d.year ∧
    v.end_time.month = d.month ∧ v.end_time.day = d.day := by
  rw [refineOne_eq] at h
  cases hst : parseTime12 u.start_time with
  | none =>
    rw [hst] at h
    exact Except.noConfusion h
  | some st =>
    rw [hst] at h
    cases hen : parseTime12 u.end_time with
    | none =>
      rw [hen] at h
      exact Except.noConfusion h
    | some en =>
      rw [hen] at h
      injection h with hv
      subst hv
      cases tz with
      | americaNewYork => exact ⟨rfl, rfl, rfl, rfl, rfl, rfl⟩

/-- Every element of a successful `mapM` result comes from some input. -/
theorem mapM_ok_forall {α β : Type} (f : α → Except String β) :
    ∀ (l : List α) (res : List β), l.mapM f = Except.ok res →
      ∀ v ∈ res, ∃ u ∈ l, f u = Except.ok v := by
  intro l
  induction l with
  | nil =>
    intro res h v hv
    rw [List.mapM_nil] at h
    have h2 : Except.ok ([] : List β) = Except.ok res := h
    injection h2 with h3
    subst h3
    cases hv
  | cons a t ih =>
    intro res h v hv
    rw [List.mapM_cons] at h
    cases hfa : f a with
    | error e =>
      rw [hfa] at h
      have h2 : (Except.error e : Except String (List β)) = Except.ok res := h
      exact Except.noConfusion h2
    | ok x =>
      rw [hfa, except_ok_bind] at h
      cases hmt : t.mapM f with
      | error e =>
        rw [hmt] at h
        have h2 : (Except.error e : Except String (List β)) = Except.ok res := h
        exact Except.noConfusion h2
      | ok xs =>
        rw [hmt, except_ok_bind] at h
        have h2 : Except.ok (x :: xs) = Except.ok res := h
        injection h2 with h3
        subst h3
        rcases List.mem_cons.mp hv with hv | hv
        · subst hv
          exact ⟨a, List.mem_cons_self a t, hfa⟩
        · obtain ⟨u, hu, hfu⟩ := ih xs hmt v hv
          exact ⟨u, List.mem_cons_of_mem a hu, hfu⟩

/-- A successful `refineCourses` run anchors every produced row to the date
parsed from its `scheduleDate` argument. -/
theorem refine_anchors (sd tz : String) (courses : List UnparsedCourse)
    (res : List RefinedCourse) (h : refineCourses sd courses tz = Except.ok res)
    (c : RefinedCourse) (hc : c ∈ res) :
    ∃ dt, parseDateMDY sd = some dt ∧
      c.start_time.year = dt.year ∧ c.start_time.month = dt.month ∧
      c.start_time.day = dt.day ∧ c.end_time.year = dt.year ∧
      c.end_time.month = dt.month ∧ c.end_time.day = dt.day := by
  rw [refineCourses_eq] at h
  cases htz : pytzTimezone tz with
  | none =>
    rw [htz] at h
    have h2 : (Except.error "UnknownTimeZoneError" :
        Except String (List RefinedCourse)) = Except.ok res := h
    exact Except.noConfusion h2
  | some t =>
    rw [htz] at h
    cases hdt : parseDateMDY sd with
    | none =>
      rw [hdt] at h
      have h2 : (Except.error "ValueError: time data does not match format" :
          Except String (List RefinedCourse)) = Except.ok res := h
      exact Except.noConfusion h2
    | some d =>
      rw [hdt] at h
      have h2 : courses.mapM (refineOne t d) = Except.ok res := h
      obtain ⟨u, _, hfu⟩ := mapM_ok_forall (refineOne t d) courses res h2 c hc
      exact ⟨d, rfl, refineOne_fields t d u c hfu⟩

/-- C10: the calendar date anchoring a day's refined events is the
requested date passed to the task, not the date the markup reports: the
pipeline's output is unchanged under any replacement of the parsed date
component, and every produced event carries the wall-clock date parsed from
the requested `scheduleDate` string. -/
theorem c10_requested_date_anchors (name d1 d2 sd tz : String)
    (rows : List UnparsedCourse) :
    doTaskFromParse (name, d1, rows) sd tz = doTaskFromParse (name, d2, rows) sd tz ∧
    ∀ res, doTaskFromParse (name, d1, rows) sd tz = Except.ok res →
      ∀ c ∈ res, ∃ dt, parseDateMDY sd = some dt ∧
        c.start_time.year = dt.year ∧ c.start_time.month = dt.month ∧
        c.start_time.day = dt.day ∧ c.end_time.year = dt.year ∧
        c.end_time.month = dt.month ∧ c.end_time.day = dt.day := by
  refine ⟨rfl, ?_⟩
  intro res hres c hc
  simp only [doTaskFromParse] at hres
  split at hres
  · exact refine_anchors sd tz rows res hres c hc
  · have h2 : Except.ok ([] : List RefinedCourse) = Except.ok res := hres
    injection h2 with h3
    subst h3
    cases hc

/-- C10 witness: a task whose markup reports `01/01/1999` (or `12/31/2099`)
but was requested for `09/03/2024` produces identical output either way,
and its single event is anchored to 2024-09-03. -/
theorem c10_requested_date_anchors_witness :
    doTaskFromParse ("Day 9", "01/01/1999",
        [⟨"1", "8:05AM", "8:55AM", "x", "", "", ""⟩]) "09/03/2024" "America/New_York"
      = doTaskFromParse ("Day 9", "12/31/2099",
        [⟨"1", "8:05AM", "8:55AM", "x", "", "", ""⟩]) "09/03/2024" "America/New_York" ∧
    (∃ dt, parseDateMDY "09/03/2024" = some dt ∧
      (2024 : Nat) = dt.year ∧ (9 : Nat) = dt.month ∧ (3 : Nat) = dt.day ∧
      (2024 : Nat) = dt.year ∧ (9 : Nat) = dt.month ∧ (3 : Nat) = dt.day) := by
  have h := c10_requested_date_anchors "Day 9" "01/01/1999" "12/31/2099"
    "09/03/2024" "America/New_York" [⟨"1", "8:05AM", "8:55AM", "x", "", "", ""⟩]
  exact ⟨h.1, h.2 [⟨"1", ⟨2024, 9, 3, 8, 5, -240⟩, ⟨2024, 9, 3, 8, 55, -240⟩,
    "x", "", "", ""⟩] rfl _ (List.mem_singleton.mpr rfl)⟩

/-- `pure` on `Except` is a success. -/
theorem except_pure {α : Type} (a : α) : (pure a : Except String α) = Except.ok a := rfl

/-- Python indexing succeeds exactly when the index is in range. -/
theorem listIdx_ok {α : Type} (l : List α) (i : Nat) (x : α)
    (h : listIdx l i = Except.ok x) : l[i]? = some x := by
  unfold listIdx at h
  cases hl : l[i]? with
  | none => rw [hl] at h; exact Except.noConfusion h
  | some y => rw [hl] at h; injection h with h2; rw [h2]

/-- `rowCourseInfoTruthy` on a two-cell row, unfolded. -/
theorem rowCourseInfoTruthy_two (row c0 c1 : BsNode)
    (heq : tagFindAll (isTagNamed "td") row = [c0, c1]) :
    rowCourseInfoTruthy row =
      match (childrenOf c1)[0]? with
      | some contents0 =>
        if isTagNode contents0 then
          match (childrenOf contents0)[0]? with
          | some ci => nodeTruthy ci
          | none => false
        else getText c1 ≠ ""
      | none => false := by
  unfold rowCourseInfoTruthy
  rw [heq]

/-- C7 (amended): a row contributes a course record only when the
`course_info` value Python tests for truthiness is truthy; the course name
itself is never inspected (and may be empty, as the counterexample shows). -/
theorem c7_contributes_only_if_truthy (row : BsNode) (c : UnparsedCourse)
    (h : processRow row = Except.ok (some c)) :
    rowCourseInfoTruthy row = true := by
  simp only [processRow] at h
  split at h
  case _ c0 c1 heq =>
    cases h0 : listIdx (tagFindAll (isTagNamed "div") c0) 0 with
    | error e =>
      rw [h0] at h
      exact Except.noConfusion
        (show (Except.error e : Except String (Option UnparsedCourse))
          = Except.ok (some c) from h)
    | ok b =>
      rw [h0, except_ok_bind] at h
      cases h1 : listIdx (tagFindAll (isTagNamed "div") c0) 1 with
      | error e =>
        rw [h1] at h
        exact Except.noConfusion
          (show (Except.error e : Except String (Option UnparsedCourse))
            = Except.ok (some c) from h)
      | ok st =>
        rw [h1, except_ok_bind] at h
        cases h2 : listIdx (tagFindAll (isTagNamed "div") c0) 2 with
        | error e =>
          rw [h2] at h
          exact Except.noConfusion
            (show (Except.error e : Except String (Option UnparsedCourse))
              = Except.ok (some c) from h)
        | ok en =>
          rw [h2, except_ok_bind] at h
          cases h3 : listIdx (childrenOf c1) 0 with
          | error e =>
            rw [h3] at h
            exact Except.noConfusion
              (show (Except.error e : Except String (Option UnparsedCourse))
                = Except.ok (some c) from h)
          | ok contents0 =>
            rw [h3, except_ok_bind] at h
            rw [rowCourseInfoTruthy_two row c0 c1 heq, listIdx_ok _ _ _ h3]
            show (if isTagNode contents0 = true then
                match (childrenOf contents0)[0]? with
                | some ci => nodeTruthy ci
                | none => false
              else decide (getText c1 ≠ "")) = true
            split at h
            case _ hTag =>
              cases h4 : listIdx (childrenOf contents0) 0 with
              | error e =>
                rw [h4] at h
                exact Except.noConfusion
                  (show (Except.error e : Except String (Option UnparsedCourse))
                    = Except.ok (some c) from h)
              | ok ci =>
                rw [h4, except_ok_bind] at h
                rw [if_pos hTag, listIdx_ok _ _ _ h4]
                split at h
                case _ hcond =>
                  exact hcond.2
                case _ hcond =>
                  rw [except_pure] at h
                  injection h with h5
                  exact Option.noConfusion h5
            case _ hTag =>
              rw [if_neg hTag]
              split at h
              case _ hcond =>
                exact decide_eq_true hcond.2
              case _ hcond =>
                rw [except_pure] at h
                injection h with h5
                exact Option.noConfusion h5
  case _ =>
    rw [except_pure] at h
    injection h with h5
    exact Option.noConfusion h5

/-- C7 witness: the whitespace-only course block of `docBlankName`
contributes a record (with empty name), and its row indeed has a truthy
`course_info`. -/
theorem c7_contributes_only_if_truthy_witness :
    rowCourseInfoTruthy (listRow "1" "8:05AM" "8:55AM" (.tag "div" [] [.text "   "]))
      = true :=
  c7_contributes_only_if_truthy _ ⟨"1", "8:05AM", "8:55AM", "", "", "", ""⟩ rfl

/-- The cons-step of `splitChar` as a rewriting rule. -/
theorem splitChar_cons_eq (sep c : Char) (rest : List Char) :
    splitChar sep (c :: rest) =
      match splitChar sep rest with
      | [] => [[]]
      | h :: t => if c = sep then [] :: h :: t else (c :: h) :: t := rfl

/-- `splitChar` always yields at least one field. -/
theorem splitChar_ne_nil (sep : Char) (l : List Char) : splitChar sep l ≠ [] := by
  cases l with
  | nil => simp [splitChar]
  | cons c rest =>
    rw [splitChar_cons_eq]
    cases splitChar sep rest with
    | nil => simp
    | cons h t => by_cases hc : c = sep <;> simp [hc]

/-- Splitting a list that starts with a separator-free prefix followed by
the separator yields that prefix as the first field. -/
theorem splitChar_pre (sep : Char) :
    ∀ (pre : List Char), (∀ x ∈ pre, x ≠ sep) →
      ∀ r, splitChar sep (pre ++ sep :: r) = pre :: splitChar sep r := by
  intro pre
  induction pre with
  | nil =>
    intro _ r
    show splitChar sep (sep :: r) = [] :: splitChar sep r
    rw [splitChar_cons_eq]
    cases hs : splitChar sep r with
    | nil => exact absurd hs (splitChar_ne_nil sep r)
    | cons h t =>
      show (if sep = sep then [] :: h :: t else (sep :: h) :: t) = [] :: h :: t
      rw [if_pos rfl]
  | cons c pre' ih =>
    intro hfree r
    have hc : c ≠ sep := hfree c (List.mem_cons_self c pre')
    have hfree' : ∀ x ∈ pre', x ≠ sep := fun x hx => hfree x (List.mem_cons_of_mem c hx)
    show splitChar sep (c :: (pre' ++ sep :: r)) = (c :: pre') :: splitChar sep r
    rw [splitChar_cons_eq, ih hfree' r]
    show (if c = sep then [] :: pre' :: splitChar sep r
      else (c :: pre') :: splitChar sep r) = (c :: pre') :: splitChar sep r
    rw [if_neg hc]

/-- C8 (amended): when the style contains a `background-color:` declaration
(first occurrence right after `pre`), the extracted color is the declared
value up to the next semicolon, stripped; when no `background-color:`
occurs at all, the extracted color is the style's first semicolon-delimited
segment, stripped — not the empty string. -/
theorem c8_color_extraction (pre val post style1 style2 : String)
    (h1 : style1 = pre ++ "background-color:" ++ val ++ ";" ++ post)
    (h2 : findSubIdx "background-color:".data style1.data = some pre.data.length)
    (h3 : ∀ x ∈ val.data, x ≠ ';')
    (h4 : pyIn "background-color:" style2 = false) :
    extractColor style1 = pyStrip val ∧
    extractColor style2 = ⟨pyStripList ((splitChar ';' style2.data).headI)⟩ := by
  constructor
  · unfold extractColor
    rw [h2]
    show (match splitChar ';'
        (style1.data.drop (pre.data.length + "background-color:".data.length)) with
      | [] => ""
      | seg :: _ => (⟨pyStripList seg⟩ : String)) = pyStrip val
    have hdrop : style1.data.drop (pre.data.length + "background-color:".data.length)
        = val.data ++ ';' :: post.data := by
      rw [h1]
      have hsplit : ((pre ++ "background-color:" ++ val ++ ";" ++ post) : String).data
          = (pre.data ++ "background-color:".data) ++ (val.data ++ ';' :: post.data) := by
        have hsemi : (";" : String).data = [';'] := rfl
        simp [String.data_append, hsemi]
      rw [hsplit, ← List.length_append, List.drop_left]
    rw [hdrop, splitChar_pre ';' val.data h3 post.data]
    rfl
  · have hnone : findSubIdx "background-color:".data style2.data = none := by
      unfold pyIn at h4
      cases hf : findSubIdx "background-color:".data style2.data with
      | none => rfl
      | some i => rw [hf] at h4; exact absurd h4 (by simp)
    unfold extractColor
    rw [hnone]
    show (match splitChar ';' style2.data with
      | [] => ""
      | seg :: _ => (⟨pyStripList seg⟩ : String)) = ⟨pyStripList ((splitChar ';' style2.data).headI)⟩
    cases hs : splitChar ';' style2.data with
    | nil => exact absurd hs (splitChar_ne_nil ';' style2.data)
    | cons seg t => rfl

/-- C8 witness: with the style `font:x;background-color: #a1b2c3 ;z` the
color is the stripped declared value `#a1b2c3`; with the
`background-color`-free style `color:red;font-size:10px` it is the first
segment `color:red`, not the empty string. -/
theorem c8_color_extraction_witness :
    extractColor "font:x;background-color: #a1b2c3 ;z" = "#a1b2c3" ∧
    extractColor "color:red;font-size:10px" = "color:red" := by
  have h := c8_color_extraction "font:x;" " #a1b2c3 " "z"
    "font:x;background-color: #a1b2c3 ;z" "color:red;font-size:10px"
    rfl rfl (by decide) rfl
  exact ⟨h.1, h.2⟩

/-- `Char.ofNat` inverts `toNat` on the basic plane. -/
theorem toNat_ofNat_valid (n : Nat) (h : n < 55296) : (Char.ofNat n).toNat = n := by
  have hv : n.isValidChar := Or.inl h
  unfold Char.ofNat
  rw [dif_pos hv]
  rfl

/-- Characters with the same code point are equal. -/
theorem char_toNat_inj {a b : Char} (h : a.toNat = b.toNat) : a = b :=
  Char.ext (UInt32.ext h)

/-- Code point of `lowerA`. -/
theorem toNat_lowerA (c : Char) :
    (lowerA c).toNat = if 65 ≤ c.toNat ∧ c.toNat ≤ 90 then c.toNat + 32 else c.toNat := by
  unfold lowerA isUpperA
  by_cases h : 65 ≤ c.toNat ∧ c.toNat ≤ 90
  · have hb : (decide (65 ≤ c.toNat) && decide (c.toNat ≤ 90)) = true := by
      simp [h.1, h.2]
    rw [if_pos hb, if_pos h]
    exact toNat_ofNat_valid _ (by omega)
  · have hb : ¬((decide (65 ≤ c.toNat) && decide (c.toNat ≤ 90)) = true) := by
      simpa using h
    rw [if_neg hb, if_neg h]

/-- Code point of `upperA`. -/
theorem toNat_upperA (c : Char) :
    (upperA c).toNat = if 97 ≤ c.toNat ∧ c.toNat ≤ 122 then c.toNat - 32 else c.toNat := by
  unfold upperA isLowerA
  by_cases h : 97 ≤ c.toNat ∧ c.toNat ≤ 122
  · have hb : (decide (97 ≤ c.toNat) && decide (c.toNat ≤ 122)) = true := by
      simp [h.1, h.2]
    rw [if_pos hb, if_pos h]
    exact toNat_ofNat_valid _ (by omega)
  · have hb : ¬((decide (97 ≤ c.toNat) && decide (c.toNat ≤ 122)) = true) := by
      simpa using h
    rw [if_neg hb, if_neg h]

theorem lowerA_lowerA (c : Char) : lowerA (lowerA c) = lowerA c := by
  apply char_toNat_inj
  rw [toNat_lowerA, toNat_lowerA]
  split_ifs <;> omega

theorem upperA_upperA (c : Char) : upperA (upperA c) = upperA c := by
  apply char_toNat_inj
  rw [toNat_upperA, toNat_upperA]
  split_ifs <;> omega

/-- Uppercasing only depends on the letter, not its case. -/
theorem upperA_lowerA (c : Char) : upperA (lowerA c) = upperA c := by
  apply char_toNat_inj
  rw [toNat_upperA, toNat_lowerA, toNat_upperA]
  split_ifs <;> omega

theorem isAlphaA_decide (c : Char) :
    isAlphaA c
      = decide ((65 ≤ c.toNat ∧ c.toNat ≤ 90) ∨ (97 ≤ c.toNat ∧ c.toNat ≤ 122)) := by
  simp [isAlphaA, isUpperA, isLowerA]

theorem isAlphaA_lowerA (c : Char) : isAlphaA (lowerA c) = isAlphaA c := by
  rw [isAlphaA_decide, isAlphaA_decide, decide_eq_decide, toNat_lowerA]
  split_ifs <;> omega

theorem isAlphaA_upperA (c : Char) : isAlphaA (upperA c) = isAlphaA c := by
  rw [isAlphaA_decide, isAlphaA_decide, decide_eq_decide, toNat_upperA]
  split_ifs <;> omega

theorem lowerA_of_not_alpha {c : Char} (h : isAlphaA c = false) : lowerA c = c := by
  unfold lowerA
  have hu : isUpperA c = false := by
    unfold isAlphaA at h
    exact (Bool.or_eq_false_iff.mp h).1
  simp [hu]

theorem caseEq_refl : ∀ l : List Char, List.Forall₂ sameLetter l l
  | [] => List.Forall₂.nil
  | _ :: t => List.Forall₂.cons rfl (caseEq_refl t)

theorem caseEq_trans : ∀ {a b c : List Char},
    List.Forall₂ sameLetter a b → List.Forall₂ sameLetter b c →
      List.Forall₂ sameLetter a c := by
  intro a b c h1
  induction h1 generalizing c with
  | nil =>
    intro h2
    cases h2
    exact List.Forall₂.nil
  | @cons x y l1 l2 hab ht ih =>
    intro h2
    cases h2 with
    | cons hbc htc => exact List.Forall₂.cons (hab.trans hbc) (ih htc)

/-- `str.title` only looks at letters up to case: case-equivalent inputs
titlecase identically. -/
theorem titleAux_congr {s t : List Char} (h : List.Forall₂ sameLetter s t) :
    ∀ pc, titleAux s pc = titleAux t pc := by
  induction h with
  | nil => intro pc; rfl
  | @cons a b l1 l2 hab htail ih =>
    intro pc
    have halpha : isAlphaA a = isAlphaA b := by
      rw [← isAlphaA_lowerA a, hab, isAlphaA_lowerA]
    have hupper : upperA a = upperA b := by
      rw [← upperA_lowerA a, hab, upperA_lowerA]
    show (if isAlphaA a then (if pc then lowerA a else upperA a) else a)
        :: titleAux l1 (isAlphaA a)
      = (if isAlphaA b then (if pc then lowerA b else upperA b) else b)
        :: titleAux l2 (isAlphaA b)
    rw [← halpha, ih (isAlphaA a)]
    congr 1
    by_cases ha : isAlphaA a = true
    · rw [if_pos ha, if_pos ha]
      cases pc
      · rw [if_neg (by simp), if_neg (by simp), hupper]
      · rw [if_pos rfl, if_pos rfl, hab]
    · have ha' : isAlphaA a = false := by simpa using ha
      rw [if_neg ha, if_neg ha]
      have hb' : isAlphaA b = false := by rw [← halpha]; exact ha'
      rw [← lowerA_of_not_alpha ha', hab, lowerA_of_not_alpha hb']

/-- `str.title` is idempotent. -/
theorem titleAux_idem : ∀ (s : List Char) (pc : Bool),
    titleAux (titleAux s pc) pc = titleAux s pc := by
  intro s
  induction s with
  | nil => intro pc; rfl
  | cons c rest ih =>
    intro pc
    by_cases ha : isAlphaA c = true
    · cases pc <;>
        simp [titleAux, ha, isAlphaA_upperA, isAlphaA_lowerA, upperA_upperA,
          lowerA_lowerA, ih]
    · have ha' : isAlphaA c = false := by simpa using ha
      simp [titleAux, ha', ih]

/-- Replacing a pattern with a case-variant of itself keeps the result
case-equivalent to the input. -/
theorem replaceAux_caseEq (pat rep : List Char)
    (hpr : List.Forall₂ sameLetter pat rep) :
    ∀ (fuel : Nat) (cs : List Char),
      List.Forall₂ sameLetter cs (replaceAux pat rep fuel cs) := by
  intro fuel
  induction fuel with
  | zero =>
    intro cs
    cases cs with
    | nil => exact List.Forall₂.nil
    | cons c rest => exact caseEq_refl _
  | succ fuel ih =>
    intro cs
    cases cs with
    | nil => exact List.Forall₂.nil
    | cons c rest =>
      show List.Forall₂ sameLetter (c :: rest)
        (if pat.isPrefixOf (c :: rest) && !pat.isEmpty then
          rep ++ replaceAux pat rep fuel ((c :: rest).drop pat.length)
        else c :: replaceAux pat rep fuel rest)
      by_cases hp : (pat.isPrefixOf (c :: rest) && !pat.isEmpty) = true
      · rw [if_pos hp]
        rw [Bool.and_eq_true] at hp
        obtain ⟨t2, ht⟩ := List.isPrefixOf_iff_prefix.mp hp.1
        rw [← ht, List.drop_left]
        exact List.rel_append hpr (ih t2)
      · rw [if_neg hp]
        exact List.Forall₂.cons rfl (ih rest)

theorem replaceList_caseEq (pat rep : List Char)
    (hpr : List.Forall₂ sameLetter pat rep) (cs : List Char) :
    List.Forall₂ sameLetter cs (replaceList pat rep cs) :=
  replaceAux_caseEq pat rep hpr cs.length cs

/-- The whole abbreviation chain only changes letter case. -/
theorem chainL_caseEq (l : List Char) : List.Forall₂ sameLetter l (chainL l) := by
  unfold chainL
  have h1 := replaceList_caseEq "Ap".data "AP".data (.cons rfl (.cons rfl .nil)) l
  have h2 := caseEq_trans h1
    (replaceList_caseEq "Am".data "Am".data (.cons rfl (.cons rfl .nil)) _)
  have h3 := caseEq_trans h2
    (replaceList_caseEq "Cp".data "CP".data (.cons rfl (.cons rfl .nil)) _)
  have h4 := caseEq_trans h3
    (replaceList_caseEq "Am".data "AM".data (.cons rfl (.cons rfl .nil)) _)
  have h5 := caseEq_trans h4
    (replaceList_caseEq "Tv".data "TV".data (.cons rfl (.cons rfl .nil)) _)
  have h6 := caseEq_trans h5
    (replaceList_caseEq "Ab".data "AB".data (.cons rfl (.cons rfl .nil)) _)
  have h7 := caseEq_trans h6
    (replaceList_caseEq "Ai".data "AI".data (.cons rfl (.cons rfl .nil)) _)
  have h8 := caseEq_trans h7
    (replaceList_caseEq "Bc".data "BC".data (.cons rfl (.cons rfl .nil)) _)
  have h9 := caseEq_trans h8
    (replaceList_caseEq "Ib".data "IB".data (.cons rfl (.cons rfl .nil)) _)
  have h10 := caseEq_trans h9
    (replaceList_caseEq "Ii".data "II".data (.cons rfl (.cons rfl .nil)) _)
  have h11 := caseEq_trans h10
    (replaceList_caseEq "Iii".data "III".data
      (.cons rfl (.cons rfl (.cons rfl .nil))) _)
  exact caseEq_trans h11
    (replaceList_caseEq "Iv".data "IV".data (.cons rfl (.cons rfl .nil)) _)

theorem data_mk (l : List Char) : (String.mk l).data = l := rfl

/-- `fancyName` collapsed to the character-list chain. -/
theorem fancyName_eq (name : String) :
    fancyName name = ⟨chainL (titleAux name.data false)⟩ := by
  simp only [fancyName, pyReplace, pyTitle, data_mk, chainL]

/-- C9: the title-case correction (Python `title()` followed by the fixed
ordered abbreviation replacement chain) maps `"ap biology"` to
`"AP Biology"` and is idempotent — in fact on every string, which covers
the claim's already-correctly-cased inputs: every replacement in the chain
only flips letter case, and `title()` is insensitive to the case of its
input, so a second application reproduces the first. -/
theorem c9_title_correction_idempotent :
    fancyName "ap biology" = "AP Biology" ∧
    ∀ s, fancyName (fancyName s) = fancyName s := by
  refine ⟨rfl, fun s => ?_⟩
  have key : titleAux (chainL (titleAux s.data false)) false = titleAux s.data false := by
    have h1 := titleAux_congr (chainL_caseEq (titleAux s.data false)) false
    rw [← h1, titleAux_idem]
  rw [fancyName_eq s, fancyName_eq]
  rw [data_mk, key]

end GDump
